import Mathlib

/-!
Shallow embedding of the core of the etna time-series toolkit
(ensemble validation helpers, the DeepAR forecast executor, and the
confidence-interval outlier report), together with theorems settling
the specification claims about them.

Conventions of the embedding:
* numeric cell values are rationals (`ℚ`); the claims under study are
  structural (placement, ordering, comparison), not about float rounding;
* a pandas dataframe with a two-level (segment, feature) column index is
  an association list from column keys to column value lists;
* Python exceptions become `Except String` results;
* external collaborators (the wrapped neural net, the interval-capable
  model, the inverse transforms) are parameters of the embedded
  functions: the embedding fixes only what the repository code does
  with their outputs.
-/

namespace EtnaSpec

/-- Cell values of the dataframe. -/
abbrev Val := ℚ

/-- A column key of the two-level pandas column index: (segment, feature). -/
abbrev ColKey := String × String

/-- A dataframe, as the association list of its columns:
each entry maps a (segment, feature) key to the list of cell values of
that column, ordered by the time index. -/
abbrev Cols := List (ColKey × List Val)

/-- Column lookup in a dataframe (`df[segment][feature]`): the first
column with the given key, if any. -/
def getCol (cols : Cols) (k : ColKey) : Option (List Val) :=
  match cols with
  | [] => none
  | kc :: rest => if kc.1 = k then some kc.2 else getCol rest k

/-- The keys of a dataframe (`df.columns`). -/
def colKeys (cols : Cols) : List ColKey := cols.map Prod.fst

/-!
## Ensembles: `src/etna/ensembles/base.py`, class `EnsembleMixin`

A constituent pipeline, as the ensemble helpers see it: a horizon
attribute plus the observable behaviour of its `fit` and `forecast`
calls.  `fitRun ts` is the outcome of `pipeline.fit(ts=ts)` (an
exception or a normal return); `forecastRun` is the outcome of
`pipeline.forecast()` (an exception or the forecast dataset).
-/
structure EnsPipeline (TS : Type) where
  name : String
  horizon : Nat
  fitRun : TS → Except String Unit
  forecastRun : Except String TS

/-- `EnsembleMixin._validate_pipeline_number`: raise
`ValueError("At least two pipelines are expected.")` when fewer than two
pipelines are given, otherwise return normally. -/
def validate_pipeline_number {TS : Type} (pipelines : List (EnsPipeline TS)) :
    Except String Unit :=
  if pipelines.length < 2 then .error "At least two pipelines are expected."
  else .ok ()

/-- `EnsembleMixin._get_horizon`: build the set of the pipelines'
horizons (`set` = `List.dedup`), raise when it has more than one
element, otherwise pop its element.  Popping from the empty set (an
empty pipeline list) raises Python's `KeyError`. -/
def get_horizon {TS : Type} (pipelines : List (EnsPipeline TS)) :
    Except String Nat :=
  let horizons := (pipelines.map (fun p => p.horizon)).dedup
  if horizons.length > 1 then .error "All the pipelines should have the same horizon."
  else
    match horizons with
    | [] => .error "KeyError: pop from an empty set"
    | h :: _ => .ok h

/-- `EnsembleMixin._fit_pipeline`: log, call `pipeline.fit(ts=ts)`, log
again, return the pipeline.  An exception raised by the `fit` call
propagates unmodified (no try/except in the source), so the second log
line is not reached and no pipeline is returned.  The first component
of the result is the list of emitted log messages. -/
def fit_pipeline {TS : Type} (pipeline : EnsPipeline TS) (ts : TS) :
    List String × Except String (EnsPipeline TS) :=
  let startLog := ["Start fitting " ++ pipeline.name ++ "."]
  match pipeline.fitRun ts with
  | .error e => (startLog, .error e)
  | .ok () => (startLog ++ ["Pipeline " ++ pipeline.name ++ " is fitted."], .ok pipeline)

/-- `EnsembleMixin._forecast_pipeline`: log, call `pipeline.forecast()`,
log again, return the forecast dataset.  An exception raised by the
`forecast` call propagates unmodified. -/
def forecast_pipeline {TS : Type} (pipeline : EnsPipeline TS) :
    List String × Except String TS :=
  let startLog := ["Start forecasting with " ++ pipeline.name ++ "."]
  match pipeline.forecastRun with
  | .error e => (startLog, .error e)
  | .ok forecast =>
      (startLog ++ ["Forecast is done with " ++ pipeline.name ++ "."], .ok forecast)

/-- A throw-away dataset type for concrete ensemble examples. -/
abbrev UnitTS := Unit

/-- A concrete pipeline for witnesses: always fits, forecasts `()`. -/
def samplePipeline (h : Nat) : EnsPipeline UnitTS :=
  { name := "pipeline"
    horizon := h
    fitRun := fun _ => .ok ()
    forecastRun := .ok () }

/-- A concrete pipeline for witnesses whose fit and forecast both raise. -/
def failingPipeline (msg : String) : EnsPipeline UnitTS :=
  { name := "failing"
    horizon := 1
    fitRun := fun _ => .error msg
    forecastRun := .error msg }

/-!
## DeepAR forecast executor: `src/etna/models/nn/deepar.py`,
`DeepARModel.forecast`
-/

/-- The dataset view handed to `DeepARModel.forecast`.  `indexLen` is
`len(ts.df)`, the number of rows of the (possibly truncated) time
index; `hasPFTransform` records whether `ts.transforms` ends in a
`PytorchForecastingTransform` (what `_get_pf_transform` checks);
`futureGenerated` records whether that transform's
`pf_dataset_predict` has been generated by `make_future`. -/
structure TSView where
  indexLen : Nat
  segments : List String
  cols : Cols
  hasPFTransform : Bool
  futureGenerated : Bool

/-- The externally trained neural net behind `self.model`, abstracted
by the outputs of its `predict` calls on the prediction dataloader:
`predicts s` is the column of the matrix `predicts.T` for segment `s`
(point predictions over the full horizon of `pf_dataset_predict`), and
`qpredicts s q` the column of quantile predictions for segment `s` and
quantile label `q`.  The dataloader is built from
`pf_dataset_predict`, not from `ts.df`, so these outputs do not change
when the caller truncates `ts.df` to a sub-range. -/
structure Net where
  predicts : String → List Val
  qpredicts : String → String → List Val

/-- `DeepARModel` forecasting state: `self.model` is `None` until
`fit` has run. -/
structure DeepARModel where
  model : Option Net

/-- `xs[-n:]`: the last `n` entries of a list (the whole list when `n`
exceeds its length). -/
def lastN (n : Nat) (xs : List Val) : List Val := xs.drop (xs.length - n)

/-- `ts.loc[:, pd.IndexSlice[:, "target"]] = predicts.T[-len(ts.df):]`:
every existing (segment, "target") column of the view is overwritten
with the last `n = len(ts.df)` rows of that segment's full-horizon
prediction column; all other columns are untouched. -/
def setTargetCols (cols : Cols) (predicts : String → List Val) (n : Nat) : Cols :=
  cols.map (fun kc =>
    if kc.1.2 = "target" then (kc.1, lastN n (predicts kc.1.1)) else kc)

/-- The quantile dataframe of the prediction-interval branch:
`pd.MultiIndex.from_product([segments, quantile_columns])` paired with
the reshaped (time, segments * quantiles) quantile prediction matrix:
for each segment `s` and quantile label `q`, the column
(s, "target_" ++ q) holds the quantile prediction column of `s` at
`q`.  Labels are the `f"{q:.4g}"` renderings of the requested
levels. -/
def quantileFrame (segments : List String) (quantiles : List String)
    (qpredicts : String → String → List Val) : Cols :=
  segments.flatMap (fun s =>
    quantiles.map (fun q => ((s, "target_" ++ q), qpredicts s q)))

/-- Strict code-point comparison of character lists (the order Python
uses to compare strings). -/
def strLtAux : List Char → List Char → Bool
  | [], [] => false
  | [], _ :: _ => true
  | _ :: _, [] => false
  | a :: as, b :: bs =>
    if a.val.toNat < b.val.toNat then true
    else if b.val.toNat < a.val.toNat then false
    else strLtAux as bs

/-- Strict lexicographic comparison of strings by code point. -/
def strLt (a b : String) : Bool := strLtAux a.data b.data

/-- Lexicographic comparison of column keys,
for `df.sort_index(axis=1)`. -/
def colKeyLe (a b : ColKey) : Bool :=
  if a.1 = b.1 then !(strLt b.2 a.2) else strLt a.1 b.1

/-- Stable ordered insertion of a column by key. -/
def insertCol (c : ColKey × List Val) : Cols → Cols
  | [] => [c]
  | d :: rest => if colKeyLe c.1 d.1 then c :: d :: rest else d :: insertCol c rest

/-- `df.sort_index(axis=1)`: reorder the columns by key (a stable
sort). -/
def sortCols (cols : Cols) : Cols := cols.foldr insertCol []

/-- `ts.inverse_transform()`: un-apply the preprocessing transforms in
reverse order.  Modelled as a caller-supplied per-column elementwise
map `invT` (etna inverse transforms act columnwise on cell values, and
the mandatory trailing `PytorchForecastingTransform` has the identity
as inverse). -/
def inverseTransform (invT : ColKey → Val → Val) (cols : Cols) : Cols :=
  cols.map (fun kc => (kc.1, kc.2.map (invT kc.1)))

/-- `DeepARModel.forecast`.  Error branches, in source order:
`_get_pf_transform` raises when the transform sequence does not end in
a `PytorchForecastingTransform`; a `ValueError` is raised when
`pf_dataset_predict` was never generated; `self.model.predict` on the
unfitted model (`self.model is None`) raises an `AttributeError`;
pandas raises on a shape mismatch when predictions are assigned into
`ts.df` (the `.loc` target assignment needs `len(ts.df)` rows to be
available in `predicts.T`, and the quantile `DataFrame` constructor
needs every value column to match `df.index` exactly). -/
def deepar_forecast (self : DeepARModel) (ts : TSView)
    (prediction_interval : Bool) (quantiles : List String)
    (invT : ColKey → Val → Val) : Except String TSView :=
  if ts.hasPFTransform = false then
    .error "Not valid usage of transforms, please add PytorchForecastingTransform at the end of transforms"
  else if ts.futureGenerated = false then
    .error "The future is not generated! Generate future using TSDataset make_future before calling forecast method!"
  else
    match self.model with
    | none => .error "AttributeError: NoneType object has no attribute predict"
    | some net =>
      if (ts.cols.all fun kc =>
            (kc.1.2 != "target") ||
              decide (ts.indexLen ≤ (net.predicts kc.1.1).length)) = false then
        .error "pandas: shape mismatch assigning predictions into the target columns"
      else
        let cols1 := setTargetCols ts.cols net.predicts ts.indexLen
        if prediction_interval then
          if (quantiles.all fun q => ts.segments.all fun s =>
                (net.qpredicts s q).length == ts.indexLen) = false then
            .error "pandas: shape mismatch constructing the quantiles DataFrame"
          else
            let cols2 :=
              sortCols (cols1 ++ quantileFrame ts.segments quantiles net.qpredicts)
            .ok { ts with cols := inverseTransform invT cols2 }
        else
          .ok { ts with cols := inverseTransform invT cols1 }

/-- Modelled from the spec: the per-segment base-model accessor
(`ProphetModel.get_model`; its source is outside the included files,
and its error message is fixed by `test_get_model_before_training`):
before `fit` has populated the dict of base models the call raises a
`ValueError`, afterwards it returns the dict. -/
def get_model {M : Type} (models : Option M) : Except String M :=
  match models with
  | none => .error "Can not get the dict with base models, the model is not fitted!"
  | some m => .ok m

/-- Reading one column out of a forecast call's result (`none` when
the call raised). -/
def forecastCol (r : Except String TSView) (k : ColKey) : Option (List Val) :=
  match r with
  | .error _ => none
  | .ok ts => getCol ts.cols k

/-- Keys of a dataframe are pairwise distinct (the pandas column index
of a `TSDataset` is duplicate-free). -/
def nodupKeys (cols : Cols) : Prop := (colKeys cols).Nodup

/-- The (segment, quantile label) pairs of
`pd.MultiIndex.from_product([segments, quantile_columns])`, in product
order. -/
def segQuantPairs (segments quantiles : List String) : List (String × String) :=
  segments.flatMap (fun s => quantiles.map (fun q => (s, q)))

/-- The column keys the quantile frame adds to the view. -/
def qKeys (segments quantiles : List String) : List ColKey :=
  (segQuantPairs segments quantiles).map (fun p => (p.1, "target_" ++ p.2))

/-- The identity inverse transform (the one the mandatory
`PytorchForecastingTransform` contributes). -/
def idInv : ColKey → Val → Val := fun _ v => v

/-!
## Confidence-interval outlier report:
`src/etna/analysis/outliers/confidence_interval_outliers.py`
-/

/-- A `TSDataset` as the outlier code sees it: the time index (`Nat`
timestamp codes), the segment labels, the wide dataframe, and the
frequency string. -/
structure OutTS where
  index : List Nat
  segments : List String
  cols : Cols
  freq : String

/-- `create_ts_by_column`: select the `column` feature of every
segment (`ts[:, :, [column]]`, a fresh frame), rename every selected
feature to "target", and build a new dataset with the same frequency;
the time index and the segment labels carry over. -/
def create_ts_by_column (ts : OutTS) (column : String) : OutTS :=
  { index := ts.index
    segments := ts.segments
    freq := ts.freq
    cols := (ts.cols.filter (fun kc => kc.1.2 == column)).map
      (fun kc => ((kc.1.1, "target"), kc.2)) }

/-- The external interval-capable model (`ProphetModel` /
`SARIMAXModel`), abstracted by the observable effects of its calls on
dataset objects: `fitEffect t` is the state the dataset passed to
`model_instance.fit` is left in (fit is supposed to mutate only the
model's internal parameters), and `forecastResult t` is the dataset
produced by `model_instance.forecast(t, confidence_interval=True,
interval_width=w)` — forecast mutates its argument object in place and
returns it. -/
structure CIModel where
  fitEffect : OutTS → OutTS
  forecastResult : OutTS → OutTS

/-- The per-segment anomaly mask of the outlier loop:
`(slice["target"] > slice["target_upper"]) |
(slice["target"] < slice["target_lower"])`, elementwise. -/
def anomaliesMask (target upper lower : List Val) : List Bool :=
  List.zipWith3 (fun t u l => decide (u < t) || decide (t < l)) target upper lower

/-- `time_points[anomalies_mask]`: the timestamps at the positions the
boolean mask flags, kept in index order. -/
def maskedPoints (time_points : List Nat) (mask : List Bool) : List Nat :=
  ((time_points.zip mask).filter (fun p => p.2)).map Prod.fst

/-- One iteration of the outlier loop: slice the interval forecast to
`segment` (`confidence_interval[:, segment, :][segment]`), build the
strict out-of-interval mask, and index the time points with it.  A
missing column would be a Python `KeyError`; the embedding returns the
empty list there and the theorems only speak about well-formed
interval forecasts. -/
def segmentOutliers (ci : OutTS) (time_points : List Nat) (segment : String) : List Nat :=
  match getCol ci.cols (segment, "target"), getCol ci.cols (segment, "target_upper"),
      getCol ci.cols (segment, "target_lower") with
  | some t, some u, some l => maskedPoints time_points (anomaliesMask t u l)
  | _, _, _ => []

/-- `get_anomalies_confidence_interval`.  Returns the outlier report
(the ordered segment-to-timestamps association, in the insertion order
of the Python dict) together with the final state of the caller's
dataset `ts`.  The source applies the in-place `forecast` to
`deepcopy(ts_inner)`, so the forecast's mutation lands on a copy and
never reaches `ts_inner`; the caller's `ts` is the very object `fit`
ran on exactly when `in_column == "target"` (otherwise `fit` ran on
the fresh dataset built by `create_ts_by_column`). -/
def get_anomalies_confidence_interval (ts : OutTS) (model : CIModel)
    (in_column : String) : List (String × List Nat) × OutTS :=
  let ts_inner := if in_column = "target" then ts else create_ts_by_column ts in_column
  let time_points := ts.index
  let ts_inner2 := model.fitEffect ts_inner
  let confidence_interval := model.forecastResult ts_inner2
  let outliers := ts_inner2.segments.map
    (fun segment => (segment, segmentOutliers confidence_interval time_points segment))
  (outliers, if in_column = "target" then ts_inner2 else ts)

/-!
## Concrete sample data for witnesses and counterexamples
-/

/-- A fitted DeepAR wrapper whose net predicts the two-step column
[1, 2] for every segment (no quantile output). -/
def cexModel : DeepARModel :=
  { model := some { predicts := fun _ => [1, 2], qpredicts := fun _ _ => [] } }

/-- The full-range future view: two rows, one segment, one target
column. -/
def cexFullView : TSView :=
  { indexLen := 2
    segments := ["s"]
    cols := [(("s", "target"), [0, 0])]
    hasPFTransform := true
    futureGenerated := true }

/-- The same future view restricted to its first row
(`forecast_ts.df = forecast_ts.df.iloc[:-1]`). -/
def cexHeadView : TSView :=
  { indexLen := 1
    segments := ["s"]
    cols := [(("s", "target"), [0])]
    hasPFTransform := true
    futureGenerated := true }

/-- A fitted DeepAR wrapper whose net point-predicts 10 but emits the
quantile columns 12 (label "0.025") and 20 (label "0.975"): the 2.5%
quantile output lies above the point prediction. -/
def cex4Model : DeepARModel :=
  { model := some
      { predicts := fun _ => [10]
        qpredicts := fun _ q => if q = "0.025" then [12] else [20] } }

/-- A fitted DeepAR wrapper whose net emits properly bracketing
quantile columns: 8 ≤ 10 ≤ 20. -/
def wit4Model : DeepARModel :=
  { model := some
      { predicts := fun _ => [10]
        qpredicts := fun _ q => if q = "0.025" then [8] else [20] } }

/-- A one-row, one-segment future view for the interval examples. -/
def cex4View : TSView :=
  { indexLen := 1
    segments := ["s"]
    cols := [(("s", "target"), [0])]
    hasPFTransform := true
    futureGenerated := true }

/-- A two-row, one-segment future view that also carries an exogenous
feature column, for the frame-effect witness. -/
def witFrameView : TSView :=
  { indexLen := 2
    segments := ["s"]
    cols := [(("s", "target"), [0, 0]), (("s", "exog"), [5, 6])]
    hasPFTransform := true
    futureGenerated := true }

/-- A fitted DeepAR wrapper with two-step point and quantile outputs,
for the frame-effect witness. -/
def witFrameModel : DeepARModel :=
  { model := some { predicts := fun _ => [1, 2], qpredicts := fun _ _ => [3, 4] } }

/-- A three-point, one-segment dataset for the outlier witnesses. -/
def witOutTS : OutTS :=
  { index := [0, 1, 2]
    segments := ["A"]
    cols := [(("A", "target"), [0, 10, 1])]
    freq := "D" }

/-- An interval forecast over `witOutTS`: the target column spikes to
10 at the middle timestamp while the interval is [-1, 1] throughout,
and the last point sits exactly on the upper boundary. -/
def witOutCI : OutTS :=
  { index := [0, 1, 2]
    segments := ["A"]
    cols := [(("A", "target"), [0, 10, 1]),
             (("A", "target_upper"), [1, 1, 1]),
             (("A", "target_lower"), [-1, -1, -1])]
    freq := "D" }

/-- The interval-capable sample model for the outlier witnesses: `fit`
leaves the dataset object untouched, `forecast` produces `witOutCI`. -/
def witOutModel : CIModel :=
  { fitEffect := fun t => t
    forecastResult := fun _ => witOutCI }

end EtnaSpec

namespace EtnaSpec

lemma nodup_all_eq_length_le_one {l : List Nat} {h : Nat}
    (hnd : l.Nodup) (hall : ∀ x ∈ l, x = h) : l.length ≤ 1 := by
  match l with
  | [] => simp
  | [_] => simp
  | a :: b :: rest =>
    exfalso
    have ha : a = h := hall a (by simp)
    have hb : b = h := hall b (by simp)
    have hab : a ≠ b := by
      intro hEq
      exact (List.nodup_cons.mp hnd).1 (hEq ▸ List.mem_cons_self b rest)
    exact hab (ha.trans hb.symm)

lemma two_distinct_dedup {l : List Nat} {a b : Nat}
    (ha : a ∈ l) (hb : b ∈ l) (hne : a ≠ b) : 1 < l.dedup.length := by
  by_contra hle
  push_neg at hle
  have ha' : a ∈ l.dedup := List.mem_dedup.mpr ha
  have hb' : b ∈ l.dedup := List.mem_dedup.mpr hb
  rcases hdd : l.dedup with _ | ⟨x, rest⟩
  · rw [hdd] at ha'
    exact absurd ha' (List.not_mem_nil a)
  · rw [hdd] at ha' hb' hle
    have hr : rest = [] := by
      rw [← List.length_eq_zero]
      simp only [List.length_cons] at hle
      omega
    rw [hr] at ha' hb'
    simp only [List.mem_singleton] at ha' hb'
    exact hne (ha'.trans hb'.symm)

/-- Claim C3: `_validate_pipeline_number` raises an error for every
list of fewer than 2 pipelines and returns without error for every list
of 2 or more pipelines. -/
theorem claim_C3_pipeline_count {TS : Type} (pipelines : List (EnsPipeline TS)) :
    (pipelines.length < 2 →
      validate_pipeline_number pipelines = .error "At least two pipelines are expected.") ∧
    (2 ≤ pipelines.length → validate_pipeline_number pipelines = .ok ()) := by
  constructor
  · intro hlt
    simp [validate_pipeline_number, hlt]
  · intro hge
    simp [validate_pipeline_number, Nat.not_lt.mpr hge]

/-- Witness for C3: the empty list and a one-element list fail, a
two-element list succeeds. -/
theorem claim_C3_pipeline_count_witness :
    validate_pipeline_number ([] : List (EnsPipeline UnitTS)) =
      .error "At least two pipelines are expected." ∧
    validate_pipeline_number [samplePipeline 5] =
      .error "At least two pipelines are expected." ∧
    validate_pipeline_number [samplePipeline 5, samplePipeline 5] = .ok () := by
  refine ⟨?_, ?_, ?_⟩
  · exact (claim_C3_pipeline_count []).1 (by simp)
  · exact (claim_C3_pipeline_count [samplePipeline 5]).1 (by simp)
  · exact (claim_C3_pipeline_count [samplePipeline 5, samplePipeline 5]).2 (by simp)

/-- Claim C2: `_get_horizon` raises an error whenever two pipelines
have distinct horizons, and returns `h` whenever the (nonempty) list of
pipelines all share the horizon `h`. -/
theorem claim_C2_horizon_resolution {TS : Type} (pipelines : List (EnsPipeline TS)) (h : Nat) :
    ((∃ p ∈ pipelines, ∃ q ∈ pipelines, p.horizon ≠ q.horizon) →
      get_horizon pipelines = .error "All the pipelines should have the same horizon.") ∧
    (pipelines ≠ [] → (∀ p ∈ pipelines, p.horizon = h) →
      get_horizon pipelines = .ok h) := by
  constructor
  · rintro ⟨p, hp, q, hq, hne⟩
    have hgt : 1 < ((pipelines.map (fun p => p.horizon)).dedup).length :=
      two_distinct_dedup (List.mem_map_of_mem _ hp) (List.mem_map_of_mem _ hq) hne
    simp only [get_horizon]
    rw [if_pos hgt]
  · intro hne hall
    have hall' : ∀ x ∈ pipelines.map (fun p => p.horizon), x = h := by
      intro x hx
      obtain ⟨p, hp, rfl⟩ := List.mem_map.mp hx
      exact hall p hp
    have hle : ((pipelines.map (fun p => p.horizon)).dedup).length ≤ 1 :=
      nodup_all_eq_length_le_one (List.nodup_dedup _)
        (fun x hx => hall' x (List.mem_dedup.mp hx))
    have hmem : h ∈ (pipelines.map (fun p => p.horizon)).dedup := by
      rw [List.mem_dedup]
      obtain ⟨p, hp⟩ := List.exists_mem_of_ne_nil pipelines hne
      exact (hall p hp) ▸ List.mem_map_of_mem _ hp
    simp only [get_horizon]
    rw [if_neg (by omega)]
    rcases hdd : (pipelines.map (fun p => p.horizon)).dedup with _ | ⟨a, rest⟩
    · rw [hdd] at hmem
      exact absurd hmem (List.not_mem_nil h)
    · rw [hdd] at hmem hle
      have ha : a = h := by
        rcases List.mem_cons.mp hmem with hh | hh
        · exact hh.symm
        · have hr : rest = [] := by
            rw [← List.length_eq_zero]
            simp only [List.length_cons] at hle
            omega
          rw [hr] at hh
          exact absurd hh (List.not_mem_nil h)
      rw [hdd, ha]

/-- Witness for C2: horizons {5, 5, 7} fail, horizons {5, 5, 5}
resolve to 5. -/
theorem claim_C2_horizon_resolution_witness :
    get_horizon [samplePipeline 5, samplePipeline 5, samplePipeline 7] =
      .error "All the pipelines should have the same horizon." ∧
    get_horizon [samplePipeline 5, samplePipeline 5, samplePipeline 5] = .ok 5 := by
  constructor
  · exact (claim_C2_horizon_resolution
      [samplePipeline 5, samplePipeline 5, samplePipeline 7] 5).1
      ⟨samplePipeline 5, by simp, samplePipeline 7, by simp, by decide⟩
  · refine (claim_C2_horizon_resolution
      [samplePipeline 5, samplePipeline 5, samplePipeline 5] 5).2 (by simp) ?_
    intro p hp
    simp only [List.mem_cons, List.not_mem_nil, or_false] at hp
    rcases hp with rfl | rfl | rfl <;> rfl

/-- Claim C6: an error raised inside a constituent pipeline's `fit` or
`forecast` call propagates unmodified through `_fit_pipeline` and
`_forecast_pipeline`, which then return no result; on success the
helpers return the fitted pipeline and the forecast dataset
respectively. -/
theorem claim_C6_error_propagation {TS : Type} (pipeline : EnsPipeline TS) (ts : TS)
    (e : String) (forecastResult : TS) :
    (pipeline.fitRun ts = .error e → (fit_pipeline pipeline ts).2 = .error e) ∧
    (pipeline.fitRun ts = .ok () → (fit_pipeline pipeline ts).2 = .ok pipeline) ∧
    (pipeline.forecastRun = .error e → (forecast_pipeline pipeline).2 = .error e) ∧
    (pipeline.forecastRun = .ok forecastResult →
      (forecast_pipeline pipeline).2 = .ok forecastResult) := by
  refine ⟨?_, ?_, ?_, ?_⟩
  · intro hfit
    simp [fit_pipeline, hfit]
  · intro hfit
    simp [fit_pipeline, hfit]
  · intro hfc
    simp [forecast_pipeline, hfc]
  · intro hfc
    simp [forecast_pipeline, hfc]

/-- Witness for C6: a failing pipeline's error comes back verbatim from
both helpers; a healthy pipeline's results come back intact. -/
theorem claim_C6_error_propagation_witness :
    (fit_pipeline (failingPipeline "boom") ()).2 = .error "boom" ∧
    (forecast_pipeline (failingPipeline "boom")).2 = .error "boom" ∧
    (fit_pipeline (samplePipeline 5) ()).2 = .ok (samplePipeline 5) ∧
    (forecast_pipeline (samplePipeline 5)).2 = .ok () := by
  refine ⟨?_, ?_, ?_, ?_⟩
  · exact (claim_C6_error_propagation (failingPipeline "boom") () "boom" ()).1 rfl
  · exact (claim_C6_error_propagation (failingPipeline "boom") () "boom" ()).2.2.1 rfl
  · exact (claim_C6_error_propagation (samplePipeline 5) () "boom" ()).2.1 rfl
  · exact (claim_C6_error_propagation (samplePipeline 5) () "boom" ()).2.2.2 rfl

end EtnaSpec

namespace EtnaSpec

lemma getCol_setTargetCols (cols : Cols) (p : String → List Val) (n : Nat) (k : ColKey) :
    getCol (setTargetCols cols p n) k =
      (getCol cols k).map (fun v => if k.2 = "target" then lastN n (p k.1) else v) := by
  induction cols with
  | nil => rfl
  | cons kc rest ih =>
    simp only [setTargetCols, List.map_cons] at ih ⊢
    by_cases hk : kc.1 = k
    · subst hk
      by_cases hc : kc.1.2 = "target" <;> simp [getCol, hc]
    · by_cases hc : kc.1.2 = "target" <;> simp [getCol, hc, hk, ih]

lemma getCol_inverseTransform (invT : ColKey → Val → Val) (cols : Cols) (k : ColKey) :
    getCol (inverseTransform invT cols) k = (getCol cols k).map (List.map (invT k)) := by
  induction cols with
  | nil => rfl
  | cons kc rest ih =>
    simp only [inverseTransform, List.map_cons] at ih ⊢
    by_cases hk : kc.1 = k
    · subst hk
      simp [getCol]
    · simp [getCol, hk, ih]

lemma getCol_append_of_some {l : Cols} {k : ColKey} {v : List Val} (r : Cols)
    (h : getCol l k = some v) : getCol (l ++ r) k = some v := by
  induction l with
  | nil => simp [getCol] at h
  | cons kc rest ih =>
    by_cases hk : kc.1 = k
    · simp only [getCol, if_pos hk] at h
      simpa [getCol, hk] using h
    · simp only [getCol, if_neg hk] at h
      simpa [getCol, hk] using ih h

lemma getCol_append_of_none {l : Cols} {k : ColKey} (r : Cols)
    (h : getCol l k = none) : getCol (l ++ r) k = getCol r k := by
  induction l with
  | nil => rfl
  | cons kc rest ih =>
    by_cases hk : kc.1 = k
    · simp [getCol, hk] at h
    · simp only [getCol, if_neg hk] at h
      simpa [getCol, hk] using ih h

lemma getCol_eq_none_iff {l : Cols} {k : ColKey} : getCol l k = none ↔ k ∉ colKeys l := by
  induction l with
  | nil => simp [getCol, colKeys]
  | cons kc rest ih =>
    by_cases hk : kc.1 = k
    · simp [getCol, colKeys, hk]
    · simp [getCol, colKeys, hk, ih, Ne.symm hk]

lemma getCol_eq_some_iff {l : Cols} (hnd : nodupKeys l) {k : ColKey} {v : List Val} :
    getCol l k = some v ↔ (k, v) ∈ l := by
  induction l with
  | nil => simp [getCol]
  | cons kc rest ih =>
    have hnd0 : kc.1 ∉ colKeys rest ∧ nodupKeys rest := by
      unfold nodupKeys colKeys at hnd ⊢
      simpa [List.nodup_cons] using hnd
    by_cases hk : kc.1 = k
    · subst hk
      constructor
      · intro h
        have hv : kc.2 = v := by simpa [getCol] using h
        rw [← hv]
        exact List.mem_cons_self _ _
      · intro hmem
        rcases List.mem_cons.mp hmem with heq | hrest
        · have hv : v = kc.2 := congrArg Prod.snd heq
          simp [getCol, hv]
        · exact absurd (List.mem_map_of_mem Prod.fst hrest) hnd0.1
    · constructor
      · intro h
        have h2 : getCol rest k = some v := by simpa [getCol, hk] using h
        exact List.mem_cons_of_mem _ ((ih hnd0.2).mp h2)
      · intro hmem
        rcases List.mem_cons.mp hmem with heq | hrest
        · exact absurd (congrArg Prod.fst heq).symm hk
        · simpa [getCol, hk] using (ih hnd0.2).mpr hrest

lemma nodupKeys_perm {l l2 : Cols} (hp : l.Perm l2) (hnd : nodupKeys l) : nodupKeys l2 := by
  unfold nodupKeys colKeys at hnd ⊢
  exact ((hp.map Prod.fst).nodup_iff).mp hnd

lemma getCol_perm {l l2 : Cols} (hp : l.Perm l2) (hnd : nodupKeys l) (k : ColKey) :
    getCol l k = getCol l2 k := by
  have hnd2 : nodupKeys l2 := nodupKeys_perm hp hnd
  rcases hv : getCol l k with _ | v
  · rw [getCol_eq_none_iff] at hv
    symm
    rw [getCol_eq_none_iff]
    intro hmem
    exact hv (((hp.map Prod.fst).mem_iff).mpr hmem)
  · rw [getCol_eq_some_iff hnd] at hv
    symm
    rw [getCol_eq_some_iff hnd2]
    exact (hp.mem_iff).mp hv

lemma insertCol_perm (c : ColKey × List Val) (l : Cols) : (insertCol c l).Perm (c :: l) := by
  induction l with
  | nil => exact List.Perm.refl _
  | cons d rest ih =>
    unfold insertCol
    by_cases h : colKeyLe c.1 d.1 = true
    · rw [if_pos h]
    · rw [if_neg h]
      exact (ih.cons d).trans (List.Perm.swap c d rest)

lemma sortCols_perm (l : Cols) : (sortCols l).Perm l := by
  induction l with
  | nil => exact List.Perm.refl _
  | cons c rest ih =>
    have h1 : sortCols (c :: rest) = insertCol c (sortCols rest) := rfl
    rw [h1]
    exact (insertCol_perm c (sortCols rest)).trans (ih.cons c)

lemma getCol_sortCols {l : Cols} (hnd : nodupKeys l) (k : ColKey) :
    getCol (sortCols l) k = getCol l k :=
  ((getCol_perm (sortCols_perm l).symm hnd k).symm : _)

lemma colKeys_append (l r : Cols) : colKeys (l ++ r) = colKeys l ++ colKeys r := by
  unfold colKeys
  exact List.map_append Prod.fst l r

lemma colKeys_setTargetCols (cols : Cols) (p : String → List Val) (n : Nat) :
    colKeys (setTargetCols cols p n) = colKeys cols := by
  unfold colKeys setTargetCols
  rw [List.map_map]
  apply List.map_congr_left
  intro kc _
  by_cases hc : kc.1.2 = "target" <;> simp [hc]

lemma colKeys_inverseTransform (invT : ColKey → Val → Val) (cols : Cols) :
    colKeys (inverseTransform invT cols) = colKeys cols := by
  unfold colKeys inverseTransform
  rw [List.map_map]
  apply List.map_congr_left
  intro kc _
  simp

lemma quantileFrame_eq_map (segments quantiles : List String)
    (qpredicts : String → String → List Val) :
    quantileFrame segments quantiles qpredicts =
      (segQuantPairs segments quantiles).map
        (fun p => ((p.1, "target_" ++ p.2), qpredicts p.1 p.2)) := by
  unfold quantileFrame segQuantPairs
  rw [List.map_flatMap]
  congr 1
  funext s
  rw [List.map_map]
  rfl

end EtnaSpec

namespace EtnaSpec

lemma getCol_map_of_nodup {α : Type} {l : List α} (key : α → ColKey) (val : α → List Val)
    (hnd : (l.map key).Nodup) {x : α} (hx : x ∈ l) :
    getCol (l.map (fun a => (key a, val a))) (key x) = some (val x) := by
  induction l with
  | nil => cases hx
  | cons a rest ih =>
    simp only [List.map_cons, List.nodup_cons] at hnd
    rcases List.mem_cons.mp hx with rfl | hx2
    · simp [getCol]
    · have hne : key a ≠ key x := fun hEq => hnd.1 (hEq ▸ List.mem_map_of_mem key hx2)
      simp only [List.map_cons, getCol, if_neg hne]
      exact ih hnd.2 hx2

lemma mem_segQuantPairs {segments quantiles : List String} {s q : String} :
    (s, q) ∈ segQuantPairs segments quantiles ↔ s ∈ segments ∧ q ∈ quantiles := by
  simp only [segQuantPairs, List.mem_flatMap, List.mem_map, Prod.mk.injEq]
  constructor
  · rintro ⟨a, ha, b, hb, rfl, rfl⟩
    exact ⟨ha, hb⟩
  · rintro ⟨hs, hq⟩
    exact ⟨s, hs, q, hq, rfl, rfl⟩

lemma colKeys_quantileFrame (segments quantiles : List String)
    (qpredicts : String → String → List Val) :
    colKeys (quantileFrame segments quantiles qpredicts) = qKeys segments quantiles := by
  rw [quantileFrame_eq_map]
  unfold colKeys qKeys
  rw [List.map_map]
  rfl

lemma getCol_quantileFrame {segments quantiles : List String}
    {qpredicts : String → String → List Val} {s q : String}
    (hs : s ∈ segments) (hq : q ∈ quantiles)
    (hnd : (qKeys segments quantiles).Nodup) :
    getCol (quantileFrame segments quantiles qpredicts) (s, "target_" ++ q)
      = some (qpredicts s q) := by
  rw [quantileFrame_eq_map]
  have hx : (s, q) ∈ segQuantPairs segments quantiles := mem_segQuantPairs.mpr ⟨hs, hq⟩
  exact @getCol_map_of_nodup (String × String) (segQuantPairs segments quantiles)
    (fun p => (p.1, "target_" ++ p.2)) (fun p => qpredicts p.1 p.2) hnd (s, q) hx

lemma mem_qKeys {segments quantiles : List String} {k : ColKey} :
    k ∈ qKeys segments quantiles ↔
      ∃ s ∈ segments, ∃ q ∈ quantiles, k = (s, "target_" ++ q) := by
  unfold qKeys
  simp only [List.mem_map]
  constructor
  · rintro ⟨⟨s, q⟩, hp, rfl⟩
    obtain ⟨hs, hq⟩ := mem_segQuantPairs.mp hp
    exact ⟨s, hs, q, hq, rfl⟩
  · rintro ⟨s, hs, q, hq, rfl⟩
    exact ⟨(s, q), mem_segQuantPairs.mpr ⟨hs, hq⟩, rfl⟩

lemma lastN_map (f : Val → Val) (n : Nat) (xs : List Val) :
    lastN n (xs.map f) = (lastN n xs).map f := by
  unfold lastN
  rw [List.length_map, List.map_drop]

lemma lastN_lastN {n m : Nat} (xs : List Val) (h : n ≤ m) :
    lastN n (lastN m xs) = lastN n xs := by
  unfold lastN
  rw [List.length_drop, List.drop_drop]
  congr 1
  omega

lemma forall2_le_map {f : Val → Val} (hf : ∀ a b, a ≤ b → f a ≤ f b)
    {l1 l2 : List Val} (h : List.Forall₂ (· ≤ ·) l1 l2) :
    List.Forall₂ (· ≤ ·) (l1.map f) (l2.map f) := by
  induction h with
  | nil => simp
  | cons hab _ ih =>
    simp only [List.map_cons]
    exact List.Forall₂.cons (hf _ _ hab) ih

lemma deepar_forecast_no_interval {self : DeepARModel} {net : Net} (ts : TSView)
    (quantiles : List String) (invT : ColKey → Val → Val)
    (hm : self.model = some net) (hpf : ts.hasPFTransform = true)
    (hfut : ts.futureGenerated = true)
    (hlen : (ts.cols.all fun kc => (kc.1.2 != "target") ||
        decide (ts.indexLen ≤ (net.predicts kc.1.1).length)) = true) :
    deepar_forecast self ts false quantiles invT =
      .ok { ts with cols :=
        inverseTransform invT (setTargetCols ts.cols net.predicts ts.indexLen) } := by
  unfold deepar_forecast
  rw [hm]
  simp [hpf, hfut, hlen]

lemma deepar_forecast_interval {self : DeepARModel} {net : Net} (ts : TSView)
    (quantiles : List String) (invT : ColKey → Val → Val)
    (hm : self.model = some net) (hpf : ts.hasPFTransform = true)
    (hfut : ts.futureGenerated = true)
    (hlen : (ts.cols.all fun kc => (kc.1.2 != "target") ||
        decide (ts.indexLen ≤ (net.predicts kc.1.1).length)) = true)
    (hq : (quantiles.all fun q => ts.segments.all fun s =>
        (net.qpredicts s q).length == ts.indexLen) = true) :
    deepar_forecast self ts true quantiles invT =
      .ok { ts with cols := inverseTransform invT (sortCols
        (setTargetCols ts.cols net.predicts ts.indexLen ++
          quantileFrame ts.segments quantiles net.qpredicts)) } := by
  unfold deepar_forecast
  rw [hm]
  simp [hpf, hfut, hlen, hq]

end EtnaSpec

namespace EtnaSpec

lemma forecastCol_ok (t : TSView) (k : ColKey) :
    forecastCol (.ok t) k = getCol t.cols k := rfl

/-- Claim C8: calling `forecast` on a freshly constructed, unfitted
DeepAR model with a properly prepared view raises (the attribute
access `self.model.predict` on `None` fails before anything is written
into the view) and never returns a view, partially filled or
otherwise; and `get_model` before `fit` fails with an explicit error
rather than returning a null result. -/
theorem claim_C8_unfitted_errors {M : Type} (ts : TSView) (pi : Bool)
    (quantiles : List String) (invT : ColKey → Val → Val)
    (hpf : ts.hasPFTransform = true) (hfut : ts.futureGenerated = true) :
    deepar_forecast { model := none } ts pi quantiles invT =
      .error "AttributeError: NoneType object has no attribute predict" ∧
    (∀ r : TSView, deepar_forecast { model := none } ts pi quantiles invT ≠ .ok r) ∧
    get_model (none : Option M) =
      .error "Can not get the dict with base models, the model is not fitted!" := by
  have h1 : deepar_forecast { model := none } ts pi quantiles invT =
      .error "AttributeError: NoneType object has no attribute predict" := by
    unfold deepar_forecast
    simp [hpf, hfut]
  refine ⟨h1, ?_, rfl⟩
  intro r hr
  rw [h1] at hr
  exact Except.noConfusion hr

/-- Witness for C8: the concrete prepared view and an unfitted model. -/
theorem claim_C8_unfitted_errors_witness :
    cexFullView.hasPFTransform = true ∧
    deepar_forecast { model := none } cexFullView false [] idInv =
      .error "AttributeError: NoneType object has no attribute predict" ∧
    get_model (none : Option Nat) =
      .error "Can not get the dict with base models, the model is not fitted!" :=
  ⟨rfl, (@claim_C8_unfitted_errors Nat cexFullView false [] idInv rfl rfl).1,
    (@claim_C8_unfitted_errors Nat cexFullView false [] idInv rfl rfl).2.2⟩

/-- Counterexample to claim C1 as stated: with a fitted model whose
full two-step prediction is [1, 2], forecasting the view restricted to
the FIRST future row (a head restriction) writes [2] — the tail slice
of the full-range forecast [1, 2] — while the head slice is [1]; the
claim's head-restriction clause fails on the code. -/
theorem claim_C1_counterexample :
    forecastCol (deepar_forecast cexModel cexHeadView false [] idInv) ("s", "target")
      = some [2] ∧
    (forecastCol (deepar_forecast cexModel cexFullView false [] idInv) ("s", "target")).map
        (List.take 1) = some [1] ∧
    forecastCol (deepar_forecast cexModel cexHeadView false [] idInv) ("s", "target") ≠
      (forecastCol (deepar_forecast cexModel cexFullView false [] idInv) ("s", "target")).map
        (List.take 1) :=
  ⟨by decide, by decide, by decide⟩

/-- Claim C1 (amended): `DeepARModel.forecast` always assigns the last
`len(ts.df)` rows of the fixed full-horizon prediction into the view
(`predicts.T[-len(ts.df):]`), so — holding the fitted model and its
external prediction fixed — forecasting any restriction of the future
range yields exactly the tail slice, of the restriction's length, of
the full-range forecast: a suffix restriction receives its correct
positional slice, and a head restriction also receives the tail slice
rather than the head slice. -/
theorem claim_C1_tail_slice_alignment (self : DeepARModel) (net : Net)
    (tsSub tsFull : TSView) (s : String) (quantiles : List String)
    (invT : ColKey → Val → Val)
    (hm : self.model = some net)
    (hpfS : tsSub.hasPFTransform = true) (hfutS : tsSub.futureGenerated = true)
    (hpfF : tsFull.hasPFTransform = true) (hfutF : tsFull.futureGenerated = true)
    (hlenS : (tsSub.cols.all fun kc => (kc.1.2 != "target") ||
        decide (tsSub.indexLen ≤ (net.predicts kc.1.1).length)) = true)
    (hlenF : (tsFull.cols.all fun kc => (kc.1.2 != "target") ||
        decide (tsFull.indexLen ≤ (net.predicts kc.1.1).length)) = true)
    (hsub : ∃ v, getCol tsSub.cols (s, "target") = some v)
    (hfull : ∃ v, getCol tsFull.cols (s, "target") = some v)
    (hle : tsSub.indexLen ≤ tsFull.indexLen) :
    forecastCol (deepar_forecast self tsSub false quantiles invT) (s, "target") =
      (forecastCol (deepar_forecast self tsFull false quantiles invT) (s, "target")).map
        (lastN tsSub.indexLen) := by
  obtain ⟨vS, hvS⟩ := hsub
  obtain ⟨vF, hvF⟩ := hfull
  rw [deepar_forecast_no_interval tsSub quantiles invT hm hpfS hfutS hlenS,
      deepar_forecast_no_interval tsFull quantiles invT hm hpfF hfutF hlenF,
      forecastCol_ok, forecastCol_ok]
  show getCol (inverseTransform invT (setTargetCols tsSub.cols net.predicts tsSub.indexLen))
      (s, "target") = _
  rw [getCol_inverseTransform, getCol_inverseTransform,
      getCol_setTargetCols, getCol_setTargetCols, hvS, hvF]
  simp [lastN_map, lastN_lastN _ hle]

/-- Witness for the amended C1: the head-restricted one-row view
receives [2], the length-1 tail slice of the full-range forecast
[1, 2]. -/
theorem claim_C1_tail_slice_alignment_witness :
    cexHeadView.indexLen ≤ cexFullView.indexLen ∧
    forecastCol (deepar_forecast cexModel cexHeadView false [] idInv) ("s", "target") =
      (forecastCol (deepar_forecast cexModel cexFullView false [] idInv) ("s", "target")).map
        (lastN cexHeadView.indexLen) :=
  ⟨by decide, claim_C1_tail_slice_alignment cexModel
    { predicts := fun _ => [1, 2], qpredicts := fun _ _ => [] }
    cexHeadView cexFullView "s" [] idInv rfl rfl rfl rfl rfl (by decide) (by decide)
    ⟨[0], rfl⟩ ⟨[0, 0], rfl⟩ (by decide)⟩

end EtnaSpec

namespace EtnaSpec

/-- Claim C9: when a forecast is requested with prediction intervals,
the returned view contains, for every segment of the view and every
quantile label q of the caller-supplied set, the quantile column
(segment, "target_" ++ q), in addition to all column keys present
before the call. -/
theorem claim_C9_quantile_columns (self : DeepARModel) (net : Net) (ts : TSView)
    (quantiles : List String) (invT : ColKey → Val → Val)
    (hm : self.model = some net) (hpf : ts.hasPFTransform = true)
    (hfut : ts.futureGenerated = true)
    (hlen : (ts.cols.all fun kc => (kc.1.2 != "target") ||
        decide (ts.indexLen ≤ (net.predicts kc.1.1).length)) = true)
    (hq : (quantiles.all fun q => ts.segments.all fun s =>
        (net.qpredicts s q).length == ts.indexLen) = true) :
    ∃ r, deepar_forecast self ts true quantiles invT = .ok r ∧
      (∀ s ∈ ts.segments, ∀ q ∈ quantiles, (s, "target_" ++ q) ∈ colKeys r.cols) ∧
      (∀ k ∈ colKeys ts.cols, k ∈ colKeys r.cols) := by
  rw [deepar_forecast_interval ts quantiles invT hm hpf hfut hlen hq]
  refine ⟨_, rfl, ?_, ?_⟩
  all_goals
    have hmem : ∀ k : ColKey, k ∈ colKeys ts.cols ++ qKeys ts.segments quantiles →
        k ∈ colKeys (inverseTransform invT (sortCols
          (setTargetCols ts.cols net.predicts ts.indexLen ++
            quantileFrame ts.segments quantiles net.qpredicts))) := by
      intro k hk
      rw [colKeys_inverseTransform]
      refine (((sortCols_perm _).map Prod.fst).mem_iff).mpr ?_
      show k ∈ colKeys (setTargetCols ts.cols net.predicts ts.indexLen ++
        quantileFrame ts.segments quantiles net.qpredicts)
      rw [colKeys_append, colKeys_setTargetCols, colKeys_quantileFrame]
      exact hk
  · intro s hs q hq2
    exact hmem _ (List.mem_append_right _ (mem_qKeys.mpr ⟨s, hs, q, hq2, rfl⟩))
  · intro k hk
    exact hmem _ (List.mem_append_left _ hk)

/-- Witness for C9: the concrete one-segment view gains the two
requested quantile columns and keeps its target column key. -/
theorem claim_C9_quantile_columns_witness :
    cex4View.hasPFTransform = true ∧
    ∃ r, deepar_forecast cex4Model cex4View true ["0.025", "0.975"] idInv = .ok r ∧
      (∀ s ∈ cex4View.segments, ∀ q ∈ ["0.025", "0.975"],
        (s, "target_" ++ q) ∈ colKeys r.cols) ∧
      (∀ k ∈ colKeys cex4View.cols, k ∈ colKeys r.cols) :=
  ⟨rfl, claim_C9_quantile_columns cex4Model
    { predicts := fun _ => [10]
      qpredicts := fun _ q => if q = "0.025" then [12] else [20] }
    cex4View ["0.025", "0.975"] idInv rfl rfl rfl (by decide) (by decide)⟩

end EtnaSpec

namespace EtnaSpec

/-- Claim C7: `forecast` returns the given view itself with only its
target (and, in prediction-interval mode, quantile) columns rewritten:
the index, segment list and flags of the view are unchanged and every
other column holds its original values, provided the final inverse
transform leaves those other columns alone (as the mandatory trailing
`PytorchForecastingTransform`, whose inverse is the identity, does). -/
theorem claim_C7_frame_effect (self : DeepARModel) (net : Net) (ts : TSView)
    (pi : Bool) (quantiles : List String) (invT : ColKey → Val → Val)
    (hm : self.model = some net) (hpf : ts.hasPFTransform = true)
    (hfut : ts.futureGenerated = true)
    (hlen : (ts.cols.all fun kc => (kc.1.2 != "target") ||
        decide (ts.indexLen ≤ (net.predicts kc.1.1).length)) = true)
    (hq : pi = true → (quantiles.all fun q => ts.segments.all fun s =>
        (net.qpredicts s q).length == ts.indexLen) = true)
    (hnd : pi = true → (colKeys ts.cols ++ qKeys ts.segments quantiles).Nodup)
    (hinv : ∀ k : ColKey, k.2 ≠ "target" → (∀ q ∈ quantiles, k.2 ≠ "target_" ++ q) →
      ∀ v : Val, invT k v = v) :
    ∃ r, deepar_forecast self ts pi quantiles invT = .ok r ∧
      r.indexLen = ts.indexLen ∧ r.segments = ts.segments ∧
      r.hasPFTransform = ts.hasPFTransform ∧ r.futureGenerated = ts.futureGenerated ∧
      ∀ k : ColKey, k.2 ≠ "target" → (∀ q ∈ quantiles, k.2 ≠ "target_" ++ q) →
        getCol r.cols k = getCol ts.cols k := by
  have hmapid : ∀ (k : ColKey), k.2 ≠ "target" →
      (∀ q ∈ quantiles, k.2 ≠ "target_" ++ q) →
      ∀ v : List Val, v.map (invT k) = v := by
    intro k hkt hkq v
    calc v.map (invT k) = v.map id := List.map_congr_left (fun x _ => hinv k hkt hkq x)
      _ = v := List.map_id v
  cases pi with
  | false =>
    rw [deepar_forecast_no_interval ts quantiles invT hm hpf hfut hlen]
    refine ⟨_, rfl, rfl, rfl, rfl, rfl, ?_⟩
    intro k hkt hkq
    show getCol (inverseTransform invT
      (setTargetCols ts.cols net.predicts ts.indexLen)) k = _
    rw [getCol_inverseTransform, getCol_setTargetCols]
    rcases hv : getCol ts.cols k with _ | v
    · rfl
    · simp only [Option.map_some', if_neg hkt]
      rw [hmapid k hkt hkq v]
  | true =>
    rw [deepar_forecast_interval ts quantiles invT hm hpf hfut hlen (hq rfl)]
    refine ⟨_, rfl, rfl, rfl, rfl, rfl, ?_⟩
    intro k hkt hkq
    show getCol (inverseTransform invT (sortCols
      (setTargetCols ts.cols net.predicts ts.indexLen ++
        quantileFrame ts.segments quantiles net.qpredicts))) k = _
    have hndX : nodupKeys (setTargetCols ts.cols net.predicts ts.indexLen ++
        quantileFrame ts.segments quantiles net.qpredicts) := by
      unfold nodupKeys
      rw [colKeys_append, colKeys_setTargetCols, colKeys_quantileFrame]
      exact hnd rfl
    rw [getCol_inverseTransform, getCol_sortCols hndX]
    have hknotq : getCol (quantileFrame ts.segments quantiles net.qpredicts) k = none := by
      rw [getCol_eq_none_iff, colKeys_quantileFrame]
      intro hkin
      obtain ⟨s, _, q, hq2, rfl⟩ := mem_qKeys.mp hkin
      exact hkq q hq2 rfl
    rcases hv : getCol (setTargetCols ts.cols net.predicts ts.indexLen) k with _ | v
    · rw [getCol_append_of_none _ hv, hknotq]
      rw [getCol_setTargetCols] at hv
      rcases hv0 : getCol ts.cols k with _ | v0
      · rfl
      · rw [hv0] at hv
        simp at hv
    · rw [getCol_append_of_some _ hv]
      rw [getCol_setTargetCols] at hv
      rcases hv0 : getCol ts.cols k with _ | v0
      · rw [hv0] at hv
        simp at hv
      · rw [hv0] at hv
        simp only [Option.map_some', if_neg hkt] at hv
        injection hv with hv
        subst hv
        simp only [Option.map_some']
        rw [hmapid k hkt hkq v0]

/-- Witness for C7: on the concrete one-segment view carrying an extra
exogenous feature column, interval forecasting preserves the view's
shape fields and the exogenous column's values. -/
theorem claim_C7_frame_effect_witness :
    witFrameView.hasPFTransform = true ∧
    ∃ r, deepar_forecast witFrameModel witFrameView true ["0.025", "0.975"] idInv = .ok r ∧
      r.indexLen = witFrameView.indexLen ∧ r.segments = witFrameView.segments ∧
      r.hasPFTransform = witFrameView.hasPFTransform ∧
      r.futureGenerated = witFrameView.futureGenerated ∧
      ∀ k : ColKey, k.2 ≠ "target" → (∀ q ∈ ["0.025", "0.975"], k.2 ≠ "target_" ++ q) →
        getCol r.cols k = getCol witFrameView.cols k :=
  ⟨rfl, claim_C7_frame_effect witFrameModel
    { predicts := fun _ => [1, 2], qpredicts := fun _ _ => [3, 4] }
    witFrameView true ["0.025", "0.975"] idInv rfl rfl rfl (by decide)
    (fun _ => by decide) (fun _ => by decide)
    (fun _ _ _ _ => rfl)⟩

end EtnaSpec

namespace EtnaSpec

/-- Counterexample to claim C4 as stated: the executor writes the
external model's quantile outputs into the view without enforcing any
relation to the point forecast; with a net whose 2.5%-quantile output
(12) lies above its point prediction (10), the returned view violates
lower-quantile ≤ target at the forecasted point. -/
theorem claim_C4_counterexample :
    forecastCol (deepar_forecast cex4Model cex4View true ["0.025", "0.975"] idInv)
      ("s", "target") = some [10] ∧
    forecastCol (deepar_forecast cex4Model cex4View true ["0.025", "0.975"] idInv)
      ("s", "target_0.025") = some [12] ∧
    ¬ ((12 : Val) ≤ 10) :=
  ⟨by decide, by decide, by decide⟩

/-- Claim C4 (amended): the executor passes the external model's point
and quantile outputs into the view unchanged up to the final inverse
transform, so lower-quantile ≤ target ≤ upper-quantile holds at every
forecasted point whenever the external quantile outputs bracket the
point predictions and the inverse transform applies one monotone map
to the target column and its quantile columns; the executor itself
does not enforce or re-establish the bracketing (and the repository's
own interval test checks only upper − lower ≥ 0). -/
theorem claim_C4_bracketing (self : DeepARModel) (net : Net) (ts : TSView)
    (ql qh : String) (quantiles : List String) (invT : ColKey → Val → Val) (s : String)
    (hm : self.model = some net) (hpf : ts.hasPFTransform = true)
    (hfut : ts.futureGenerated = true)
    (hlen : (ts.cols.all fun kc => (kc.1.2 != "target") ||
        decide (ts.indexLen ≤ (net.predicts kc.1.1).length)) = true)
    (hq : (quantiles.all fun q => ts.segments.all fun s2 =>
        (net.qpredicts s2 q).length == ts.indexLen) = true)
    (hnd : (colKeys ts.cols ++ qKeys ts.segments quantiles).Nodup)
    (hs : s ∈ ts.segments) (hql : ql ∈ quantiles) (hqh : qh ∈ quantiles)
    (htcol : ∃ v, getCol ts.cols (s, "target") = some v)
    (hmono : ∀ a b : Val, a ≤ b → invT (s, "target") a ≤ invT (s, "target") b)
    (hloInv : invT (s, "target_" ++ ql) = invT (s, "target"))
    (hhiInv : invT (s, "target_" ++ qh) = invT (s, "target"))
    (hbrLo : List.Forall₂ (· ≤ ·) (net.qpredicts s ql)
      (lastN ts.indexLen (net.predicts s)))
    (hbrHi : List.Forall₂ (· ≤ ·) (lastN ts.indexLen (net.predicts s))
      (net.qpredicts s qh)) :
    ∃ r lo tg hi, deepar_forecast self ts true quantiles invT = .ok r ∧
      getCol r.cols (s, "target_" ++ ql) = some lo ∧
      getCol r.cols (s, "target") = some tg ∧
      getCol r.cols (s, "target_" ++ qh) = some hi ∧
      List.Forall₂ (· ≤ ·) lo tg ∧ List.Forall₂ (· ≤ ·) tg hi := by
  obtain ⟨v0, hv0⟩ := htcol
  rw [deepar_forecast_interval ts quantiles invT hm hpf hfut hlen hq]
  have hndX : nodupKeys (setTargetCols ts.cols net.predicts ts.indexLen ++
      quantileFrame ts.segments quantiles net.qpredicts) := by
    unfold nodupKeys
    rw [colKeys_append, colKeys_setTargetCols, colKeys_quantileFrame]
    exact hnd
  have hndQ : (qKeys ts.segments quantiles).Nodup := (List.nodup_append.mp hnd).2.1
  have hdisj : (colKeys ts.cols).Disjoint (qKeys ts.segments quantiles) :=
    (List.nodup_append.mp hnd).2.2
  have htg : getCol (setTargetCols ts.cols net.predicts ts.indexLen ++
      quantileFrame ts.segments quantiles net.qpredicts) (s, "target") =
      some (lastN ts.indexLen (net.predicts s)) := by
    apply getCol_append_of_some
    rw [getCol_setTargetCols, hv0]
    simp
  have hqcol : ∀ q ∈ quantiles, getCol (setTargetCols ts.cols net.predicts ts.indexLen ++
      quantileFrame ts.segments quantiles net.qpredicts) (s, "target_" ++ q) =
      some (net.qpredicts s q) := by
    intro q hq2
    have h1 : getCol (setTargetCols ts.cols net.predicts ts.indexLen)
        (s, "target_" ++ q) = none := by
      rw [getCol_eq_none_iff, colKeys_setTargetCols]
      intro hin
      exact hdisj hin (mem_qKeys.mpr ⟨s, hs, q, hq2, rfl⟩)
    rw [getCol_append_of_none _ h1]
    exact getCol_quantileFrame hs hq2 hndQ
  refine ⟨_, (net.qpredicts s ql).map (invT (s, "target")),
    (lastN ts.indexLen (net.predicts s)).map (invT (s, "target")),
    (net.qpredicts s qh).map (invT (s, "target")), rfl, ?_, ?_, ?_, ?_, ?_⟩
  · show getCol (inverseTransform invT (sortCols
      (setTargetCols ts.cols net.predicts ts.indexLen ++
        quantileFrame ts.segments quantiles net.qpredicts))) (s, "target_" ++ ql) = _
    rw [getCol_inverseTransform, getCol_sortCols hndX, hqcol ql hql]
    simp only [Option.map_some']
    rw [hloInv]
  · show getCol (inverseTransform invT (sortCols
      (setTargetCols ts.cols net.predicts ts.indexLen ++
        quantileFrame ts.segments quantiles net.qpredicts))) (s, "target") = _
    rw [getCol_inverseTransform, getCol_sortCols hndX, htg]
    simp only [Option.map_some']
  · show getCol (inverseTransform invT (sortCols
      (setTargetCols ts.cols net.predicts ts.indexLen ++
        quantileFrame ts.segments quantiles net.qpredicts))) (s, "target_" ++ qh) = _
    rw [getCol_inverseTransform, getCol_sortCols hndX, hqcol qh hqh]
    simp only [Option.map_some']
    rw [hhiInv]
  · exact forall2_le_map hmono hbrLo
  · exact forall2_le_map hmono hbrHi

/-- Witness for the amended C4: a net with properly bracketing outputs
8 ≤ 10 ≤ 20 yields a view whose quantile columns bracket the target. -/
theorem claim_C4_bracketing_witness :
    (8 : Val) ≤ 10 ∧
    ∃ r lo tg hi, deepar_forecast wit4Model cex4View true ["0.025", "0.975"] idInv = .ok r ∧
      getCol r.cols ("s", "target_" ++ "0.025") = some lo ∧
      getCol r.cols ("s", "target") = some tg ∧
      getCol r.cols ("s", "target_" ++ "0.975") = some hi ∧
      List.Forall₂ (· ≤ ·) lo tg ∧ List.Forall₂ (· ≤ ·) tg hi :=
  ⟨by decide, claim_C4_bracketing wit4Model
    { predicts := fun _ => [10]
      qpredicts := fun _ q => if q = "0.025" then [8] else [20] }
    cex4View "0.025" "0.975" ["0.025", "0.975"] idInv "s"
    rfl rfl rfl (by decide) (by decide) (by decide)
    (by decide) (by decide) (by decide)
    ⟨[0], rfl⟩ (fun a b hab => hab) rfl rfl
    (List.Forall₂.cons (by decide) List.Forall₂.nil)
    (List.Forall₂.cons (by decide) List.Forall₂.nil)⟩

end EtnaSpec

namespace EtnaSpec

lemma zip_getElem? {α β : Type} (l1 : List α) (l2 : List β) (i : Nat) :
    (l1.zip l2)[i]? = l1[i]?.bind (fun a => (l2[i]?).map (fun b => (a, b))) := by
  induction l1 generalizing l2 i with
  | nil => simp
  | cons a r ih =>
    cases l2 with
    | nil => simp
    | cons b r2 =>
      cases i with
      | zero => simp
      | succ j => simpa using ih r2 j

lemma zipWith3_getElem? {α β γ δ : Type} (f : α → β → γ → δ)
    (l1 : List α) (l2 : List β) (l3 : List γ) (i : Nat) :
    (List.zipWith3 f l1 l2 l3)[i]? =
      l1[i]?.bind (fun a => l2[i]?.bind (fun b => (l3[i]?).map (f a b))) := by
  induction l1 generalizing l2 l3 i with
  | nil => cases l2 <;> cases l3 <;> simp [List.zipWith3]
  | cons a r1 ih =>
    cases l2 with
    | nil => cases l3 <;> simp [List.zipWith3]
    | cons b r2 =>
      cases l3 with
      | nil => simp [List.zipWith3]
      | cons c r3 =>
        cases i with
        | zero => simp [List.zipWith3]
        | succ j => simpa [List.zipWith3] using ih r2 r3 j

lemma mem_maskedPoints {tp : List Nat} {mask : List Bool} {x : Nat} :
    x ∈ maskedPoints tp mask ↔ ∃ i : Nat, tp[i]? = some x ∧ mask[i]? = some true := by
  unfold maskedPoints
  rw [List.mem_map]
  constructor
  · rintro ⟨⟨a, b⟩, hmem, rfl⟩
    rw [List.mem_filter] at hmem
    obtain ⟨hz, hb⟩ := hmem
    have hb2 : b = true := by simpa using hb
    subst hb2
    rw [List.mem_iff_getElem?] at hz
    obtain ⟨i, hi⟩ := hz
    rw [zip_getElem?] at hi
    rcases h1 : tp[i]? with _ | a2
    · rw [h1] at hi
      simp at hi
    · rcases h2 : mask[i]? with _ | b2
      · rw [h1, h2] at hi
        simp at hi
      · rw [h1, h2] at hi
        simp only [Option.bind_some, Option.map_some'] at hi
        injection hi with hi
        have ha : a2 = a := congrArg Prod.fst hi
        have hbb : b2 = true := congrArg Prod.snd hi
        refine ⟨i, ?_, ?_⟩
        · rw [h1]
          exact congrArg some ha
        · rw [h2]
          exact congrArg some hbb
  · rintro ⟨i, hx, hm⟩
    refine ⟨(x, true), ?_, rfl⟩
    rw [List.mem_filter]
    constructor
    · rw [List.mem_iff_getElem?]
      refine ⟨i, ?_⟩
      rw [zip_getElem?, hx, hm]
      rfl
    · rfl

end EtnaSpec

namespace EtnaSpec

lemma anomaliesMask_getElem? (t u l : List Val) (i : Nat) :
    (anomaliesMask t u l)[i]? = some true ↔
      ∃ tv uv lv : Val, t[i]? = some tv ∧ u[i]? = some uv ∧ l[i]? = some lv ∧
        (uv < tv ∨ tv < lv) := by
  unfold anomaliesMask
  rw [zipWith3_getElem?]
  rcases h1 : t[i]? with _ | tv
  · simp
  · rcases h2 : u[i]? with _ | uv
    · simp
    · rcases h3 : l[i]? with _ | lv
      · simp
      · simp only [Option.some_bind, Option.map_some']
        constructor
        · intro h
          injection h with h
          refine ⟨tv, uv, lv, rfl, rfl, rfl, ?_⟩
          simpa using h
        · rintro ⟨tv2, uv2, lv2, he1, he2, he3, hor⟩
          injection he1 with he1
          injection he2 with he2
          injection he3 with he3
          subst he1
          subst he2
          subst he3
          have hb : (decide (uv < tv) || decide (tv < lv)) = true := by
            rcases hor with h | h <;> simp [h]
          rw [hb]

lemma maskedPoints_sublist (tp : List Nat) (mask : List Bool) :
    (maskedPoints tp mask).Sublist tp := by
  induction tp generalizing mask with
  | nil => simp [maskedPoints]
  | cons a r ih =>
    cases mask with
    | nil => simp [maskedPoints]
    | cons b mr =>
      cases b
      · simpa [maskedPoints] using (ih mr).cons a
      · simpa [maskedPoints] using (ih mr).cons₂ a

/-- Claim C5: the outlier report's keys are exactly the analyzed
dataset's segment labels, and for each segment the value is the list
of exactly those timestamps at whose positions the interval forecast's
target lies strictly above target_upper or strictly below
target_lower (a point on the interval boundary is not flagged), in
ascending time order. -/
theorem claim_C5_outlier_report (ts tsInner : OutTS) (model : CIModel) (in_column : String)
    (hinner : tsInner = if in_column = "target" then ts
      else create_ts_by_column ts in_column)
    (hfit : ∀ t : OutTS, model.fitEffect t = t)
    (hsorted : ts.index.Sorted (· < ·)) :
    ((get_anomalies_confidence_interval ts model in_column).1.map Prod.fst
      = tsInner.segments) ∧
    ∀ s ∈ tsInner.segments, ∀ t u l : List Val,
      getCol (model.forecastResult tsInner).cols (s, "target") = some t →
      getCol (model.forecastResult tsInner).cols (s, "target_upper") = some u →
      getCol (model.forecastResult tsInner).cols (s, "target_lower") = some l →
      ∃ out, (s, out) ∈ (get_anomalies_confidence_interval ts model in_column).1 ∧
        (∀ x : Nat, x ∈ out ↔ ∃ i : Nat, ∃ tv uv lv : Val,
          ts.index[i]? = some x ∧ t[i]? = some tv ∧ u[i]? = some uv ∧
          l[i]? = some lv ∧ (uv < tv ∨ tv < lv)) ∧
        out.Sorted (· < ·) := by
  have hE : (get_anomalies_confidence_interval ts model in_column).1 =
      tsInner.segments.map (fun segment =>
        (segment, segmentOutliers (model.forecastResult tsInner) ts.index segment)) := by
    unfold get_anomalies_confidence_interval
    simp only [← hinner, hfit]
  constructor
  · rw [hE, List.map_map]
    have : (Prod.fst ∘ fun segment =>
        (segment, segmentOutliers (model.forecastResult tsInner) ts.index segment)) =
        fun segment => segment := rfl
    rw [this]
    exact List.map_id tsInner.segments
  · intro s hs t u l ht hu hl
    refine ⟨maskedPoints ts.index (anomaliesMask t u l), ?_, ?_, ?_⟩
    · rw [hE]
      refine List.mem_map.mpr ⟨s, hs, ?_⟩
      simp only [segmentOutliers, ht, hu, hl]
    · intro x
      rw [mem_maskedPoints]
      constructor
      · rintro ⟨i, hx, hm2⟩
        obtain ⟨tv, uv, lv, h1, h2, h3, hor⟩ := (anomaliesMask_getElem? t u l i).mp hm2
        exact ⟨i, tv, uv, lv, hx, h1, h2, h3, hor⟩
      · rintro ⟨i, tv, uv, lv, hx, h1, h2, h3, hor⟩
        exact ⟨i, hx, (anomaliesMask_getElem? t u l i).mpr ⟨tv, uv, lv, h1, h2, h3, hor⟩⟩
    · exact List.Pairwise.sublist (maskedPoints_sublist _ _) hsorted

/-- Witness for C5: on the concrete spiked dataset the report flags
exactly the middle timestamp and leaves the boundary point alone. -/
theorem claim_C5_outlier_report_witness :
    (get_anomalies_confidence_interval witOutTS witOutModel "target").1 = [("A", [1])] ∧
    ((get_anomalies_confidence_interval witOutTS witOutModel "target").1.map Prod.fst
      = witOutTS.segments) :=
  ⟨by decide,
    (claim_C5_outlier_report witOutTS witOutTS witOutModel "target" rfl
      (fun _ => rfl) (by decide)).1⟩

/-- Claim C10: under the precondition that the external model's fit
mutates only the model's internal parameters, the call leaves the
caller's dataset untouched (the in-place target-writing forecast ran
on a deep copy of the possibly column-projected dataset): every
column, the target included, keeps its values. -/
theorem claim_C10_no_caller_mutation (ts : OutTS) (model : CIModel) (in_column : String)
    (hfit : ∀ t : OutTS, model.fitEffect t = t) :
    (get_anomalies_confidence_interval ts model in_column).2 = ts ∧
    ∀ k : ColKey,
      getCol ((get_anomalies_confidence_interval ts model in_column).2).cols k
        = getCol ts.cols k := by
  have h2 : (get_anomalies_confidence_interval ts model in_column).2 = ts := by
    unfold get_anomalies_confidence_interval
    by_cases hc : in_column = "target" <;> simp [hc, hfit]
  exact ⟨h2, fun k => by rw [h2]⟩

/-- Witness for C10: the concrete dataset comes back unchanged. -/
theorem claim_C10_no_caller_mutation_witness :
    (get_anomalies_confidence_interval witOutTS witOutModel "target").2 = witOutTS ∧
    ∀ k : ColKey,
      getCol ((get_anomalies_confidence_interval witOutTS witOutModel "target").2).cols k
        = getCol witOutTS.cols k :=
  claim_C10_no_caller_mutation witOutTS witOutModel "target" (fun _ => rfl)

end EtnaSpec
